import Mathlib

/-!
Verification development for the packaging script of the phantabular
repository (src/package.py).

Embedding choices, all taken from the source:
* Filesystem paths are modelled as lists of components (`List String`);
  the source builds paths with `a + "/" + b`, which corresponds to
  `a ++ [b]` on component lists, since filesystem name components never
  contain a slash.
* The on-disk tree is an inductive `FSTree`: a regular file with its byte
  content (`List Nat`), or a directory with an ordered list of named
  children; the child order models the order in which `os.walk` lists
  entries (`dirnames` and `filenames` are both drawn from this order).
* The zip archive is modelled as the list of entries appended to it, in
  order.  `zipfile.ZipFile.write(source, target)` appends one entry whose
  archive name is `target`; when `source` is a directory it appends a
  directory marker entry (modelled by the `isDir` flag).  Archive-format
  internals (compression, headers) are out of scope.
* `os.walk(top)` with the default `onerror=None` silently yields nothing
  when `top` does not exist or is not a directory; when `top` is a
  directory its first tuple is `(top, dirnames, filenames)`.
* In `add_dir_to_target_dir` (package.py lines 11-25) the statement
  `dirnames[:] = []` is executed inside the `for dirname in dirnames:`
  loop body, so after the first iteration the list being iterated is
  empty and the loop stops: only the first subdirectory is recursed into,
  and `os.walk` (topdown) never descends by itself because `dirnames` was
  cleared.  Hence each call processes exactly one `os.walk` tuple, recurses
  into at most the first subdirectory, and then writes every regular file
  of the current directory.  `walkAdd` below reproduces exactly this.
* The recursive call `add_dir_to_target_dir(dirpath + "/" + dirname, ...)`
  re-walks the child path; looking that path up in the tree yields the
  child subtree, so the model recurses into the subtree directly.
* Failures of `zipfile.ZipFile.write` on a missing path surface as
  Python's FileNotFoundError, modelled by `PyError.fileNotFound`; the
  script installs no handler, so the first such error aborts the run.
-/

namespace Phantabular

/-- A filesystem tree: a regular file with its content, or a directory
with an ordered list of named children (the listing order used by
`os.walk`). -/
inductive FSTree where
  | file (content : List Nat)
  | dir (children : List (String × FSTree))

/-- One entry appended to the zip archive: its archive name (path
relative to the archive root, as components), the bytes written, and
whether it is a directory marker entry (zipfile appends a trailing slash
to the stored name in that case). -/
structure ZEntry where
  name : List String
  content : List Nat
  isDir : Bool
deriving Repr, DecidableEq

/-- The unhandled Python error raised when a source path handed to
`zipfile.ZipFile.write` does not exist (FileNotFoundError). -/
inductive PyError where
  | fileNotFound (path : List String)
deriving Repr, DecidableEq

/-- Path resolution on the tree, one component at a time; descending
through a missing name or through a regular file yields `none`, exactly
as the OS reports ENOENT / ENOTDIR. -/
def lookup : FSTree → List String → Option FSTree
  | t, [] => some t
  | .file _, _ :: _ => none
  | .dir cs, n :: p =>
    match cs.find? (fun c => c.1 == n) with
    | some c => lookup c.2 p
    | none => none

/-- The `for filename in filenames:` loop of package.py lines 21-25: every
regular-file child of the current directory is written into the archive at
`target_dir_name + "/" + filename`, in listing order. -/
def filesPart : List (String × FSTree) → List String → List ZEntry
  | [], _ => []
  | (m, .file co) :: rest, target => ⟨target ++ [m], co, false⟩ :: filesPart rest target
  | (_, .dir _) :: rest, target => filesPart rest target

mutual
/-- The body of `add_dir_to_target_dir` applied to the subtree at the
source path.  `os.walk` yields a single tuple (see the module comment):
the `for dirname in dirnames:` loop recurses into at most the first
subdirectory (`firstDirPart`), after which `dirnames[:] = []` ends both
the loop and the walk, and then every regular file of the current
directory is written (`filesPart`).  On a non-directory the walk yields
nothing. -/
def walkAdd : FSTree → List String → List ZEntry
  | .file _, _ => []
  | .dir cs, target => firstDirPart cs target ++ filesPart cs target

/-- The `for dirname in dirnames:` loop of package.py lines 13-19: it
reaches only the first directory child, because `dirnames[:] = []` inside
the loop body empties the list being iterated after the first iteration.
The recursion into that child models the recursive call
`add_dir_to_target_dir(dirpath + "/" + dirname, target_dir_name + "/" +
dirname)`. -/
def firstDirPart : List (String × FSTree) → List String → List ZEntry
  | [], _ => []
  | (_, .file _) :: rest, target => firstDirPart rest target
  | (n, .dir cs) :: _, target => walkAdd (.dir cs) (target ++ [n])
end

/-- `add_dir_to_target_dir(source_dir_name, target_dir_name)` of
package.py lines 11-25, as the list of entries it appends to the archive:
resolve the source path and run the walk body on it; a missing source
yields no entries because `os.walk` silently yields nothing there. -/
def add_dir_to_target_dir (fs : FSTree) (source target : List String) : List ZEntry :=
  match lookup fs source with
  | some t => walkAdd t target
  | none => []

/-- `add_dir(relative_dir_name)` of package.py lines 27-29: the source is
resolved against `self_dirname` and the target is the relative name
itself. -/
def add_dir (fs : FSTree) (self_dirname rel : List String) : List ZEntry :=
  add_dir_to_target_dir fs (self_dirname ++ rel) rel

/-- `add_file(relative_file_name)` of package.py lines 31-33:
`output_file.write(self_dirname + "/" + relative_file_name,
relative_file_name)`.  A regular file is appended under exactly the
relative name; a directory source makes zipfile append a directory marker
entry; a missing source raises FileNotFoundError. -/
def add_file (fs : FSTree) (self_dirname rel : List String) : Except PyError ZEntry :=
  match lookup fs (self_dirname ++ rel) with
  | some (.file c) => .ok ⟨rel, c, false⟩
  | some (.dir _) => .ok ⟨rel, [], true⟩
  | none => .error (.fileNotFound (self_dirname ++ rel))

/-- One top-level call of the script body (package.py lines 39-55). -/
inductive Cmd where
  | addDirC (rel : List String)
  | addFileC (rel : List String)

/-- The hardcoded inclusion list, package.py lines 39-55, in source
order. -/
def script : List Cmd := [
  .addDirC ["archive"],
  .addDirC ["background"],
  .addDirC ["deps", "dexie", "dist"],
  .addFileC ["deps", "dexie", "LICENSE"],
  .addFileC ["deps", "jexl", "jexl.bundle.js"],
  .addFileC ["deps", "jexl", "LICENSE.txt"],
  .addFileC ["deps", "mvp", "mvp.css"],
  .addFileC ["deps", "mvp", "LICENSE"],
  .addFileC ["deps", "open-color", "open-color.css"],
  .addFileC ["deps", "open-color", "LICENSE"],
  .addDirC ["icons"],
  .addDirC ["images"],
  .addDirC ["popup"],
  .addDirC ["settings"],
  .addDirC ["shared"],
  .addDirC ["LICENSE"],
  .addFileC ["manifest.json"]]

/-- Entries appended to the archive by one top-level call; an `add_file`
on a missing source raises instead of appending. -/
def runCmd (fs : FSTree) (self_dirname : List String) : Cmd → Except PyError (List ZEntry)
  | .addDirC rel => .ok (add_dir fs self_dirname rel)
  | .addFileC rel =>
    match add_file fs self_dirname rel with
    | .ok e => .ok [e]
    | .error err => .error err

/-- Sequencing of top-level calls: the first unhandled error aborts the
rest of the run (the script installs no handler). -/
def runCmds (fs : FSTree) (self_dirname : List String) : List Cmd → Except PyError (List ZEntry)
  | [] => .ok []
  | c :: rest =>
    match runCmd fs self_dirname c with
    | .ok es =>
      match runCmds fs self_dirname rest with
      | .ok es2 => .ok (es ++ es2)
      | .error err => .error err
    | .error err => .error err

/-- The whole packaging run: the archive contents produced by the fixed
inclusion list, or the error that aborted the run. -/
def runScript (fs : FSTree) (self_dirname : List String) : Except PyError (List ZEntry) :=
  runCmds fs self_dirname script

/-- Ambient process state other than the source tree: the current working
directory and the clock.  package.py resolves every source path against
`self_dirname` (line 5) and never reads the clock into entry data, so the
run never consults either field; `runScriptInEnv` records that the whole
run is a function of the tree and the script location alone. -/
structure Env where
  cwd : List String
  clock : Nat

/-- The packaging run as observed from a process environment; the source
gives the environment no influence on the output (see `Env`). -/
def runScriptInEnv (_env : Env) (fs : FSTree) (self_dirname : List String) :
    Except PyError (List ZEntry) :=
  runScript fs self_dirname

/-- Operations performed on the zip archive handle over time. -/
inductive ZipEvent where
  | opened
  | wrote (e : ZEntry)
  | closed
deriving Repr, DecidableEq

/-- The archive operations performed by a list of top-level calls, in
order; an aborting error ends the trace (no close happens on the error
path either, since the script has no handler or finalizer). -/
def traceCmds (fs : FSTree) (self_dirname : List String) : List Cmd → List ZipEvent
  | [] => []
  | c :: rest =>
    match runCmd fs self_dirname c with
    | .ok es => es.map ZipEvent.wrote ++ traceCmds fs self_dirname rest
    | .error _ => []

/-- The full trace of operations on the archive handle: `ZipFile(...)`
opens it (package.py line 9), then the script body writes entries; the
script never calls close. -/
def scriptTrace (fs : FSTree) (self_dirname : List String) : List ZipEvent :=
  ZipEvent.opened :: traceCmds fs self_dirname script

mutual
/-- Well-formedness of a tree as a real filesystem provides it: the
children of every directory have pairwise distinct names. -/
def wfTree : FSTree → Bool
  | .file _ => true
  | .dir cs => decide ((cs.map Prod.fst).Nodup) && allWf cs

/-- All trees in a children list are well-formed. -/
def allWf : List (String × FSTree) → Bool
  | [] => true
  | c :: rest => wfTree c.2 && allWf rest
end

/-- Whether a run completed without an unhandled error. -/
def isOk : Except PyError (List ZEntry) → Bool
  | .ok _ => true
  | .error _ => false

/-- The entries of a completed run (empty on an aborted run). -/
def okEntries : Except PyError (List ZEntry) → List ZEntry
  | .ok es => es
  | .error _ => []

/-- Syntactic compatibility of two top-level calls: a sufficient condition
for the archive names they can produce to be disjoint (an `add_dir` call
owns every name strictly below its relative root, an `add_file` call owns
its relative name). -/
def compat : Cmd → Cmd → Bool
  | .addDirC r1, .addDirC r2 => !(r1.isPrefixOf r2) && !(r2.isPrefixOf r1)
  | .addDirC r1, .addFileC r2 => !(r1.isPrefixOf r2)
  | .addFileC r1, .addDirC r2 => !(r2.isPrefixOf r1)
  | .addFileC r1, .addFileC r2 => r1 != r2

/-- Pairwise compatibility along a list of calls. -/
def pairwiseCompat : List Cmd → Bool
  | [] => true
  | c :: rest => rest.all (compat c) && pairwiseCompat rest

/-- The archive names a top-level call can produce: strictly below the
relative root for `add_dir`, exactly the relative name for `add_file`. -/
def nameShape : Cmd → List String → Prop
  | .addDirC r, n => ∃ p, p ≠ [] ∧ n = r ++ p
  | .addFileC r, n => n = r

theorem wfTree_dir_iff (cs : List (String × FSTree)) :
    wfTree (.dir cs) = true ↔ (cs.map Prod.fst).Nodup ∧ allWf cs = true := by
  rw [wfTree]
  simp [Bool.and_eq_true]

theorem allWf_iff (cs : List (String × FSTree)) :
    allWf cs = true ↔ ∀ c ∈ cs, wfTree c.2 = true := by
  induction cs with
  | nil => simp [allWf]
  | cons c rest ih =>
    rw [allWf]
    simp [Bool.and_eq_true, ih]

theorem lookup_append (t : FSTree) (a b : List String) :
    lookup t (a ++ b) = (lookup t a).bind fun t2 => lookup t2 b := by
  induction a generalizing t with
  | nil => simp [lookup]
  | cons n a ih =>
    cases t with
    | file c => simp [lookup]
    | dir cs =>
      simp only [List.cons_append, lookup]
      cases cs.find? (fun c => c.1 == n) with
      | none => simp
      | some c => simp [ih]

theorem wf_lookup (p : List String) (t t2 : FSTree)
    (hwf : wfTree t = true) (hl : lookup t p = some t2) : wfTree t2 = true := by
  induction p generalizing t with
  | nil =>
    rw [lookup] at hl
    cases hl
    exact hwf
  | cons n p ih =>
    cases t with
    | file c => exact absurd hl (by simp [lookup])
    | dir cs =>
      rw [lookup] at hl
      cases hfind : cs.find? (fun c => c.1 == n) with
      | none => rw [hfind] at hl; cases hl
      | some c =>
        rw [hfind] at hl
        have hmem : c ∈ cs := List.mem_of_find?_eq_some hfind
        have hwfc : wfTree c.2 = true :=
          (allWf_iff cs).1 ((wfTree_dir_iff cs).1 hwf).2 c hmem
        exact ih c.2 hwfc hl

theorem find_of_nodup (cs : List (String × FSTree)) (m : String) (t2 : FSTree)
    (hnd : (cs.map Prod.fst).Nodup) (hm : (m, t2) ∈ cs) :
    cs.find? (fun c => c.1 == m) = some (m, t2) := by
  induction cs with
  | nil => cases hm
  | cons hd tl ih =>
    have hnd2 := hnd
    rw [List.map_cons, List.nodup_cons] at hnd2
    rcases List.mem_cons.1 hm with heq | htl
    · cases heq
      rw [List.find?_cons_of_pos _ (by simp)]
    · cases hb : (hd.1 == m) with
      | true =>
        have h1 : hd.1 = m := by simpa using hb
        apply absurd _ hnd2.1
        rw [h1]
        exact List.mem_map.2 ⟨(m, t2), htl, rfl⟩
      | false =>
        rw [List.find?_cons_of_neg _ (by simpa using hb)]
        exact ih hnd2.2 htl

theorem filesPart_mem (cs : List (String × FSTree)) (target : List String) (e : ZEntry)
    (he : e ∈ filesPart cs target) :
    ∃ m co, (m, FSTree.file co) ∈ cs ∧ e = ⟨target ++ [m], co, false⟩ := by
  induction cs with
  | nil => cases he
  | cons hd tl ih =>
    obtain ⟨m0, t0⟩ := hd
    cases t0 with
    | file co =>
      rw [filesPart] at he
      rcases List.mem_cons.1 he with heq | htl
      · exact ⟨m0, co, List.mem_cons_self _ _, heq⟩
      · obtain ⟨m, co2, hmem, heq⟩ := ih htl
        exact ⟨m, co2, List.mem_cons_of_mem _ hmem, heq⟩
    | dir cs2 =>
      rw [filesPart] at he
      obtain ⟨m, co2, hmem, heq⟩ := ih he
      exact ⟨m, co2, List.mem_cons_of_mem _ hmem, heq⟩

theorem filesPart_nodup (cs : List (String × FSTree)) (target : List String)
    (hnd : (cs.map Prod.fst).Nodup) :
    ((filesPart cs target).map ZEntry.name).Nodup := by
  induction cs with
  | nil => simp [filesPart]
  | cons hd tl ih =>
    have hnd2 := hnd
    rw [List.map_cons, List.nodup_cons] at hnd2
    obtain ⟨m0, t0⟩ := hd
    cases t0 with
    | file co =>
      rw [filesPart, List.map_cons, List.nodup_cons]
      refine ⟨?_, ih hnd2.2⟩
      intro hmem
      obtain ⟨e, he, hname⟩ := List.mem_map.1 hmem
      obtain ⟨m, co2, hmemtl, heq⟩ := filesPart_mem tl target e he
      have : m = m0 := by
        have := hname
        rw [heq] at this
        simpa using this
      exact hnd2.1 (List.mem_map.2 ⟨(m, FSTree.file co2), this ▸ hmemtl, this⟩)
    | dir cs2 =>
      rw [filesPart]
      exact ih hnd2.2

mutual
theorem walkAdd_shape (t : FSTree) (target : List String) (e : ZEntry)
    (he : e ∈ walkAdd t target) : ∃ p, 1 ≤ p.length ∧ e.name = target ++ p := by
  cases t with
  | file c => rw [walkAdd] at he; cases he
  | dir cs =>
    rw [walkAdd] at he
    rcases List.mem_append.1 he with h1 | h2
    · obtain ⟨p, hp, hn⟩ := firstDirPart_shape cs target e h1
      exact ⟨p, by omega, hn⟩
    · obtain ⟨m, co, _, heq⟩ := filesPart_mem cs target e h2
      exact ⟨[m], by simp, by rw [heq]⟩

theorem firstDirPart_shape (cs : List (String × FSTree)) (target : List String) (e : ZEntry)
    (he : e ∈ firstDirPart cs target) : ∃ p, 2 ≤ p.length ∧ e.name = target ++ p := by
  match cs with
  | [] => rw [firstDirPart] at he; cases he
  | (m, .file co) :: rest =>
    exact firstDirPart_shape rest target e (by rwa [firstDirPart] at he)
  | (m, .dir cs2) :: rest =>
    rw [firstDirPart] at he
    obtain ⟨p, hp, hn⟩ := walkAdd_shape (.dir cs2) (target ++ [m]) e he
    exact ⟨m :: p, by simp; omega, by simp [hn]⟩
end

mutual
theorem walkAdd_nodup (t : FSTree) (target : List String)
    (hwf : wfTree t = true) : ((walkAdd t target).map ZEntry.name).Nodup := by
  cases t with
  | file c => rw [walkAdd]; simp
  | dir cs =>
    obtain ⟨hnd, hall⟩ := (wfTree_dir_iff cs).1 hwf
    rw [walkAdd, List.map_append]
    refine List.Nodup.append (firstDirPart_nodup cs target hall) (filesPart_nodup cs target hnd) ?_
    intro n h1 h2
    obtain ⟨e1, he1, hn1⟩ := List.mem_map.1 h1
    obtain ⟨e2, he2, hn2⟩ := List.mem_map.1 h2
    obtain ⟨p1, hp1, hs1⟩ := firstDirPart_shape cs target e1 he1
    obtain ⟨m, co, _, heq⟩ := filesPart_mem cs target e2 he2
    have hlen1 : n.length = target.length + p1.length := by
      rw [← hn1, hs1]; simp
    have hlen2 : n.length = target.length + 1 := by
      rw [← hn2, heq]; simp
    omega

theorem firstDirPart_nodup (cs : List (String × FSTree)) (target : List String)
    (hall : allWf cs = true) : ((firstDirPart cs target).map ZEntry.name).Nodup := by
  match cs with
  | [] => rw [firstDirPart]; simp
  | (m, .file co) :: rest =>
    rw [firstDirPart]
    exact firstDirPart_nodup rest target (((allWf_iff _).2 fun c hc =>
      (allWf_iff _).1 hall c (List.mem_cons_of_mem _ hc)))
  | (m, .dir cs2) :: rest =>
    rw [firstDirPart]
    exact walkAdd_nodup (.dir cs2) (target ++ [m])
      ((allWf_iff _).1 hall (m, .dir cs2) (List.mem_cons_self _ _))
end

mutual
theorem walkAdd_mirror (t : FSTree) (target : List String) (e : ZEntry)
    (hwf : wfTree t = true) (he : e ∈ walkAdd t target) :
    ∃ p, p ≠ [] ∧ e.name = target ++ p ∧ lookup t p = some (.file e.content) ∧ e.isDir = false := by
  cases t with
  | file c => rw [walkAdd] at he; cases he
  | dir cs =>
    obtain ⟨hnd, hall⟩ := (wfTree_dir_iff cs).1 hwf
    rw [walkAdd] at he
    rcases List.mem_append.1 he with h1 | h2
    · obtain ⟨m, t2, hmem, p, hp, hname, hlk, hdir⟩ := firstDirPart_mirror cs target e hall h1
      refine ⟨m :: p, by simp, by simpa using hname, ?_, hdir⟩
      rw [lookup, find_of_nodup cs m t2 hnd hmem]
      exact hlk
    · obtain ⟨m, co, hmem, heq⟩ := filesPart_mem cs target e h2
      refine ⟨[m], by simp, by rw [heq], ?_, by rw [heq]⟩
      rw [lookup, find_of_nodup cs m (.file co) hnd hmem]
      simp [lookup, heq]

theorem firstDirPart_mirror (cs : List (String × FSTree)) (target : List String) (e : ZEntry)
    (hall : allWf cs = true) (he : e ∈ firstDirPart cs target) :
    ∃ m t2, (m, t2) ∈ cs ∧ ∃ p, p ≠ [] ∧ e.name = (target ++ [m]) ++ p ∧
      lookup t2 p = some (.file e.content) ∧ e.isDir = false := by
  match cs with
  | [] => rw [firstDirPart] at he; cases he
  | (m0, .file co) :: rest =>
    rw [firstDirPart] at he
    obtain ⟨m, t2, hmem, hrest⟩ := firstDirPart_mirror rest target e
      ((allWf_iff _).2 fun c hc => (allWf_iff _).1 hall c (List.mem_cons_of_mem _ hc)) he
    exact ⟨m, t2, List.mem_cons_of_mem _ hmem, hrest⟩
  | (m0, .dir cs2) :: rest =>
    rw [firstDirPart] at he
    obtain ⟨p, hp, hname, hlk, hdir⟩ := walkAdd_mirror (.dir cs2) (target ++ [m0]) e
      ((allWf_iff _).1 hall (m0, .dir cs2) (List.mem_cons_self _ _)) he
    exact ⟨m0, .dir cs2, List.mem_cons_self _ _, p, hp, hname, hlk, hdir⟩
end

theorem add_dir_mem_shape (fs : FSTree) (self_dirname rel : List String) (e : ZEntry)
    (he : e ∈ add_dir fs self_dirname rel) : ∃ p, p ≠ [] ∧ e.name = rel ++ p := by
  rw [add_dir, add_dir_to_target_dir] at he
  cases hlk : lookup fs (self_dirname ++ rel) with
  | none => rw [hlk] at he; cases he
  | some t =>
    rw [hlk] at he
    obtain ⟨p, hp, hn⟩ := walkAdd_shape t rel e he
    exact ⟨p, by intro h; rw [h] at hp; simp at hp, hn⟩

theorem add_dir_mirror (fs : FSTree) (self_dirname rel : List String) (e : ZEntry)
    (hwf : wfTree fs = true) (he : e ∈ add_dir fs self_dirname rel) :
    ∃ p, p ≠ [] ∧ e.name = rel ++ p ∧
      lookup fs ((self_dirname ++ rel) ++ p) = some (.file e.content) ∧ e.isDir = false := by
  rw [add_dir, add_dir_to_target_dir] at he
  cases hlk : lookup fs (self_dirname ++ rel) with
  | none => rw [hlk] at he; cases he
  | some t =>
    rw [hlk] at he
    obtain ⟨p, hp, hname, hsub, hdir⟩ :=
      walkAdd_mirror t rel e (wf_lookup (self_dirname ++ rel) fs t hwf hlk) he
    refine ⟨p, hp, hname, ?_, hdir⟩
    rw [lookup_append, hlk]
    exact hsub

theorem add_file_ok (fs : FSTree) (self_dirname rel : List String) (e : ZEntry)
    (h : add_file fs self_dirname rel = .ok e) :
    e.name = rel ∧
      (e.isDir = false → lookup fs (self_dirname ++ rel) = some (.file e.content)) := by
  rw [add_file] at h
  cases hlk : lookup fs (self_dirname ++ rel) with
  | none => rw [hlk] at h; cases h
  | some t =>
    rw [hlk] at h
    cases t with
    | file c => cases h; exact ⟨rfl, fun _ => rfl⟩
    | dir cs => cases h; exact ⟨rfl, fun hc => by cases hc⟩

theorem runCmd_ok_shape (fs : FSTree) (self_dirname : List String) (c : Cmd)
    (es : List ZEntry) (h : runCmd fs self_dirname c = .ok es) (e : ZEntry)
    (he : e ∈ es) : nameShape c e.name := by
  cases c with
  | addDirC rel =>
    rw [runCmd] at h
    cases h
    exact add_dir_mem_shape fs self_dirname rel e he
  | addFileC rel =>
    rw [runCmd] at h
    cases haf : add_file fs self_dirname rel with
    | ok e0 =>
      rw [haf] at h
      cases h
      rcases List.mem_singleton.1 he with rfl
      exact (add_file_ok fs self_dirname rel e haf).1
    | error err => rw [haf] at h; cases h

theorem runCmd_ok_nodup (fs : FSTree) (self_dirname : List String) (c : Cmd)
    (es : List ZEntry) (hwf : wfTree fs = true)
    (h : runCmd fs self_dirname c = .ok es) : (es.map ZEntry.name).Nodup := by
  cases c with
  | addDirC rel =>
    rw [runCmd] at h
    cases h
    rw [add_dir, add_dir_to_target_dir]
    cases hlk : lookup fs (self_dirname ++ rel) with
    | none => simp
    | some t => exact walkAdd_nodup t rel (wf_lookup (self_dirname ++ rel) fs t hwf hlk)
  | addFileC rel =>
    rw [runCmd] at h
    cases haf : add_file fs self_dirname rel with
    | ok e0 => rw [haf] at h; cases h; simp
    | error err => rw [haf] at h; cases h

theorem prefix_total {α : Type} (l1 l2 l3 : List α) (h1 : l1 <+: l3) (h2 : l2 <+: l3) :
    l1 <+: l2 ∨ l2 <+: l1 :=
  List.prefix_or_prefix_of_prefix h1 h2

theorem not_prefix_of_isPrefixOf_false {α : Type} [BEq α] [LawfulBEq α]
    (l1 l2 : List α) (h : l1.isPrefixOf l2 = false) : ¬ l1 <+: l2 := by
  intro hp
  have h2 : l1.isPrefixOf l2 = true := List.isPrefixOf_iff_prefix.2 hp
  rw [h2] at h
  cases h

theorem compat_names_disjoint (c1 c2 : Cmd) (hc : compat c1 c2 = true)
    (n : List String) (h1 : nameShape c1 n) (h2 : nameShape c2 n) : False := by
  cases c1 with
  | addDirC r1 =>
    cases c2 with
    | addDirC r2 =>
      rw [compat, Bool.and_eq_true] at hc
      have hnp1 : ¬ r1 <+: r2 :=
        not_prefix_of_isPrefixOf_false r1 r2 (by simpa using hc.1)
      have hnp2 : ¬ r2 <+: r1 :=
        not_prefix_of_isPrefixOf_false r2 r1 (by simpa using hc.2)
      obtain ⟨p1, _, he1⟩ := h1
      obtain ⟨p2, _, he2⟩ := h2
      rcases prefix_total r1 r2 n ⟨p1, he1.symm⟩ ⟨p2, he2.symm⟩ with h | h
      · exact hnp1 h
      · exact hnp2 h
    | addFileC r2 =>
      rw [compat] at hc
      have hnp : ¬ r1 <+: r2 :=
        not_prefix_of_isPrefixOf_false r1 r2 (by simpa using hc)
      obtain ⟨p1, _, he1⟩ := h1
      rw [nameShape] at h2
      exact hnp ⟨p1, by rw [← he1, h2]⟩
  | addFileC r1 =>
    cases c2 with
    | addDirC r2 =>
      rw [compat] at hc
      have hnp : ¬ r2 <+: r1 :=
        not_prefix_of_isPrefixOf_false r2 r1 (by simpa using hc)
      obtain ⟨p2, _, he2⟩ := h2
      rw [nameShape] at h1
      exact hnp ⟨p2, by rw [← he2, h1]⟩
    | addFileC r2 =>
      rw [compat] at hc
      rw [nameShape] at h1 h2
      exact (by simpa using hc : r1 ≠ r2) (by rw [← h1, h2])

theorem runCmds_cons (fs : FSTree) (self_dirname : List String) (c : Cmd) (l : List Cmd)
    (es : List ZEntry) (h : runCmds fs self_dirname (c :: l) = .ok es) :
    ∃ es1 es2, runCmd fs self_dirname c = .ok es1 ∧
      runCmds fs self_dirname l = .ok es2 ∧ es = es1 ++ es2 := by
  rw [runCmds] at h
  cases h1 : runCmd fs self_dirname c with
  | ok es1 =>
    rw [h1] at h
    cases h2 : runCmds fs self_dirname l with
    | ok es2 =>
      rw [h2] at h
      cases h
      exact ⟨es1, es2, rfl, rfl, rfl⟩
    | error err => rw [h2] at h; cases h
  | error err => rw [h1] at h; cases h

theorem runCmds_mem (fs : FSTree) (self_dirname : List String) (l : List Cmd)
    (es : List ZEntry) (h : runCmds fs self_dirname l = .ok es) (e : ZEntry)
    (he : e ∈ es) :
    ∃ c, c ∈ l ∧ ∃ esc, runCmd fs self_dirname c = .ok esc ∧ e ∈ esc := by
  induction l generalizing es with
  | nil =>
    rw [runCmds] at h
    cases h
    cases he
  | cons c l ih =>
    obtain ⟨es1, es2, h1, h2, rfl⟩ := runCmds_cons fs self_dirname c l es h
    rcases List.mem_append.1 he with hm | hm
    · exact ⟨c, List.mem_cons_self _ _, es1, h1, hm⟩
    · obtain ⟨c2, hc2, esc, hesc, hmem⟩ := ih es2 h2 hm
      exact ⟨c2, List.mem_cons_of_mem _ hc2, esc, hesc, hmem⟩

theorem runCmds_nodup (fs : FSTree) (self_dirname : List String) (l : List Cmd)
    (es : List ZEntry) (hwf : wfTree fs = true) (hpc : pairwiseCompat l = true)
    (h : runCmds fs self_dirname l = .ok es) : (es.map ZEntry.name).Nodup := by
  induction l generalizing es with
  | nil =>
    rw [runCmds] at h
    cases h
    simp
  | cons c l ih =>
    rw [pairwiseCompat, Bool.and_eq_true] at hpc
    obtain ⟨es1, es2, h1, h2, rfl⟩ := runCmds_cons fs self_dirname c l es h
    rw [List.map_append]
    refine List.Nodup.append (runCmd_ok_nodup fs self_dirname c es1 hwf h1)
      (ih es2 hpc.2 h2) ?_
    intro n hn1 hn2
    obtain ⟨e1, he1, hname1⟩ := List.mem_map.1 hn1
    obtain ⟨e2, he2, hname2⟩ := List.mem_map.1 hn2
    obtain ⟨c2, hc2, esc, hesc, hmem⟩ := runCmds_mem fs self_dirname l es2 h2 e2 he2
    have hcompat : compat c c2 = true := List.all_eq_true.1 hpc.1 c2 hc2
    exact compat_names_disjoint c c2 hcompat n
      (hname1 ▸ runCmd_ok_shape fs self_dirname c es1 h1 e1 he1)
      (hname2 ▸ runCmd_ok_shape fs self_dirname c2 esc hesc e2 hmem)

theorem closed_not_in_traceCmds (fs : FSTree) (self_dirname : List String) (l : List Cmd) :
    ZipEvent.closed ∉ traceCmds fs self_dirname l := by
  induction l with
  | nil => rw [traceCmds]; simp
  | cons c l ih =>
    rw [traceCmds]
    cases h : runCmd fs self_dirname c with
    | ok es =>
      intro hmem
      rcases List.mem_append.1 hmem with hm | hm
      · obtain ⟨e, _, heq⟩ := List.mem_map.1 hm
        cases heq
      · exact ih hm
    | error err => simp

/-- A source tree whose directory `d` has two immediate subdirectories
`a` (holding the file `x`) and `b` (holding the file `y`): the failing
input for the claim that every subdirectory is descended into. -/
def twoSubdirTree : FSTree :=
  .dir [("d", .dir [("a", .dir [("x", .file [1])]), ("b", .dir [("y", .file [2])])])]

/-- A root directory with no children: `add_dir` on any relative name
finds no source there. -/
def emptyRoot : FSTree := .dir []

/-- A root holding just a manifest file, for the `add_file` scenario. -/
def oneFileRoot : FSTree := .dir [("manifest.json", .file [7])]

/-- The source tree of the spec's scenario for C4: exactly the regular
files `archive/a.js` and `archive/sub/b.js`. -/
def scenarioTree : FSTree :=
  .dir [("archive", .dir [("a.js", .file [10]), ("sub", .dir [("b.js", .file [20])])])]

/-- A source tree holding the nested dexie dependency:
`deps/dexie/dist/dexie.js` and `deps/dexie/LICENSE`. -/
def depsTree : FSTree :=
  .dir [("deps", .dir [("dexie",
    .dir [("dist", .dir [("dexie.js", .file [3])]), ("LICENSE", .file [4])])])]

/-- A sample project tree providing every source path the inclusion list
of package.py names, each directory with a single file so that the walk
bug does not abort coverage. -/
def sampleFS : FSTree := .dir [
  ("archive", .dir [("a.js", .file [1])]),
  ("background", .dir [("bg.js", .file [2])]),
  ("deps", .dir [
    ("dexie", .dir [("dist", .dir [("dexie.js", .file [3])]), ("LICENSE", .file [4])]),
    ("jexl", .dir [("jexl.bundle.js", .file [5]), ("LICENSE.txt", .file [6])]),
    ("mvp", .dir [("mvp.css", .file [7]), ("LICENSE", .file [8])]),
    ("open-color", .dir [("open-color.css", .file [9]), ("LICENSE", .file [10])])]),
  ("icons", .dir [("icon.png", .file [11])]),
  ("images", .dir [("img.png", .file [12])]),
  ("popup", .dir [("popup.html", .file [13])]),
  ("settings", .dir [("settings.html", .file [14])]),
  ("shared", .dir [("shared.js", .file [15])]),
  ("LICENSE", .file [16]),
  ("manifest.json", .file [17])]

/-- C1: the claim that `add_directory(source_dir, target_dir)` archives
every regular file reachable from `source_dir` — in particular under
every immediate subdirectory — fails on the code.  On a directory `d`
with two subdirectories the call archives only `d/a/x` and silently omits
`d/b/y`, a regular file that is reachable (`lookup` finds it): the
statement `dirnames[:] = []` (package.py line 19) runs inside the
`for dirname in dirnames:` loop, so iteration stops after the first
subdirectory. -/
theorem C1_second_subdir_omitted :
    (add_dir_to_target_dir twoSubdirTree ["d"] ["d"]).map ZEntry.name = [["d", "a", "x"]]
    ∧ ["d", "b", "y"] ∉ (add_dir_to_target_dir twoSubdirTree ["d"] ["d"]).map ZEntry.name
    ∧ lookup twoSubdirTree ["d", "b", "y"] = some (.file [2]) :=
  ⟨rfl, by decide, rfl⟩

/-- C2 counterexample: an `add_dir` call whose source path does not exist
raises no error and aborts nothing — `os.walk` on a missing path silently
yields no tuples — so the claim that every missing source path fails the
run with a not-found error is false for `add_directory`. -/
theorem C2_missing_dir_silently_skipped :
    lookup emptyRoot ([] ++ ["archive"]) = none
    ∧ runCmd emptyRoot [] (.addDirC ["archive"]) = .ok []
    ∧ runCmds emptyRoot [] [.addDirC ["archive"]] = .ok [] :=
  ⟨rfl, rfl, rfl⟩

/-- C2 (amended): when a named source path does not exist, `add_file`
raises a not-found error naming that path and the rest of the run is
aborted, while `add_dir` silently contributes no entries and the run
continues. -/
theorem C2_missing_path_behaviour (fs : FSTree) (self_dirname rel : List String)
    (rest : List Cmd) (h : lookup fs (self_dirname ++ rel) = none) :
    runCmds fs self_dirname (.addFileC rel :: rest)
        = .error (.fileNotFound (self_dirname ++ rel))
    ∧ runCmds fs self_dirname (.addDirC rel :: rest) = runCmds fs self_dirname rest := by
  constructor
  · simp [runCmds, runCmd, add_file, h]
  · simp only [runCmds, runCmd, add_dir, add_dir_to_target_dir, h]
    cases hr : runCmds fs self_dirname rest with
    | ok es2 => simp
    | error err => simp

/-- C2 witness: the spec's scenario — `add_file("manifest.json")` with no
manifest on disk — raises the not-found error and the run aborts, while
the same missing path under `add_dir` is skipped. -/
theorem C2_missing_path_behaviour_witness :
    runCmds emptyRoot [] [.addFileC ["manifest.json"]]
        = .error (.fileNotFound ["manifest.json"])
    ∧ runCmds emptyRoot [] [.addDirC ["manifest.json"]] = runCmds emptyRoot [] [] :=
  C2_missing_path_behaviour emptyRoot [] ["manifest.json"] [] rfl

/-- C3: `add_file(relative_path)` on an existing regular file appends
exactly one entry to the archive, and its entry name is exactly
`relative_path`, with no remapping. -/
theorem C3_add_file_single_exact (fs : FSTree) (self_dirname rel : List String)
    (c : List Nat) (h : lookup fs (self_dirname ++ rel) = some (.file c)) :
    runCmd fs self_dirname (.addFileC rel) = .ok [⟨rel, c, false⟩] := by
  simp [runCmd, add_file, h]

/-- C3 witness: adding an existing `manifest.json` appends the single
entry named `manifest.json`. -/
theorem C3_add_file_single_exact_witness :
    runCmd oneFileRoot [] (.addFileC ["manifest.json"])
        = .ok [⟨["manifest.json"], [7], false⟩] :=
  C3_add_file_single_exact oneFileRoot [] ["manifest.json"] [7] rfl

/-- C4: on the source tree holding exactly `archive/a.js` and
`archive/sub/b.js`, `add_directory("archive", "archive")` produces entries
`archive/a.js` and `archive/sub/b.js` and nothing else. -/
theorem C4_archive_scenario :
    ["archive", "a.js"] ∈ (add_dir scenarioTree [] ["archive"]).map ZEntry.name
    ∧ ["archive", "sub", "b.js"] ∈ (add_dir scenarioTree [] ["archive"]).map ZEntry.name
    ∧ ∀ n ∈ (add_dir scenarioTree [] ["archive"]).map ZEntry.name,
        n = ["archive", "a.js"] ∨ n = ["archive", "sub", "b.js"] := by
  decide

/-- C5 counterexample: no dependency subpath is shortened.  The dexie
dist directory is archived by `add_dir("deps/dexie/dist")`, whose entry
names carry the full source-relative path `deps/dexie/dist/...` — four
components, exactly the source location relative to the script directory,
not fewer. -/
theorem C5_no_shortening_counterexample :
    (add_dir depsTree [] ["deps", "dexie", "dist"]).map ZEntry.name
        = [["deps", "dexie", "dist", "dexie.js"]]
    ∧ ¬ ∃ e ∈ add_dir depsTree [] ["deps", "dexie", "dist"], e.name.length < 4 :=
  ⟨rfl, by decide⟩

/-- C5 (amended): every target path inside the archive exactly mirrors
the source's directory structure relative to the script's own directory:
an entry written by `add_dir(rel)` is named `rel ++ p` and its source is
the regular file at `self_dirname ++ rel ++ p` — no remapping and no
shortening happens anywhere. -/
theorem C5_exact_mirror (fs : FSTree) (self_dirname rel : List String) (e : ZEntry)
    (hwf : wfTree fs = true) (he : e ∈ add_dir fs self_dirname rel) :
    ∃ p, p ≠ [] ∧ e.name = rel ++ p ∧
      lookup fs ((self_dirname ++ rel) ++ p) = some (.file e.content) := by
  obtain ⟨p, hp, hname, hlk, _⟩ := add_dir_mirror fs self_dirname rel e hwf he
  exact ⟨p, hp, hname, hlk⟩

/-- C5 witness: the dexie dist file is archived at its exact
source-relative location. -/
theorem C5_exact_mirror_witness :
    ∃ p, p ≠ [] ∧
      (⟨["deps", "dexie", "dist", "dexie.js"], [3], false⟩ : ZEntry).name
        = ["deps", "dexie", "dist"] ++ p ∧
      lookup depsTree (([] ++ ["deps", "dexie", "dist"]) ++ p) = some (.file [3]) :=
  C5_exact_mirror depsTree [] ["deps", "dexie", "dist"]
    ⟨["deps", "dexie", "dist", "dexie.js"], [3], false⟩ (by decide) (by decide)

/-- C6: on a well-formed source tree, a completed packaging run (the
fixed inclusion list of package.py lines 39-55) writes no two archive
entries with the same entry name. -/
theorem C6_unique_names (fs : FSTree) (self_dirname : List String) (es : List ZEntry)
    (hwf : wfTree fs = true) (hrun : runScript fs self_dirname = .ok es) :
    (es.map ZEntry.name).Nodup :=
  runCmds_nodup fs self_dirname script es hwf (by decide) hrun

/-- C6 witness: the run over the sample tree completes and its entry
names are duplicate-free. -/
theorem C6_unique_names_witness :
    isOk (runScript sampleFS []) = true
    ∧ ((okEntries (runScript sampleFS [])).map ZEntry.name).Nodup :=
  ⟨rfl, C6_unique_names sampleFS [] (okEntries (runScript sampleFS [])) (by decide) rfl⟩

/-- C7: every source path read is resolved against the script's own
directory while the archive name stays relative to the archive root: an
`add_file(rel)` entry is named exactly `rel` and its bytes are read from
`self_dirname ++ rel`; an `add_dir(rel)` entry named `n` has its bytes
read from `self_dirname ++ n`. -/
theorem C7_self_relative_sources (fs : FSTree) (self_dirname rel : List String) (e : ZEntry) :
    (add_file fs self_dirname rel = .ok e →
      e.name = rel ∧
        (e.isDir = false → lookup fs (self_dirname ++ rel) = some (.file e.content)))
    ∧ (wfTree fs = true → e ∈ add_dir fs self_dirname rel →
        lookup fs (self_dirname ++ e.name) = some (.file e.content) ∧
          ∃ p, p ≠ [] ∧ e.name = rel ++ p) := by
  constructor
  · exact add_file_ok fs self_dirname rel e
  · intro hwf he
    obtain ⟨p, hp, hname, hlk, _⟩ := add_dir_mirror fs self_dirname rel e hwf he
    refine ⟨?_, p, hp, hname⟩
    rw [hname, ← List.append_assoc]
    exact hlk

/-- C7 witness: on the sample tree, the manifest entry keeps its relative
name with bytes read from the script directory, and the entry written by
`add_dir("archive")` reads its bytes from the script directory at its own
archive name. -/
theorem C7_self_relative_sources_witness :
    ((⟨["manifest.json"], [17], false⟩ : ZEntry).name = ["manifest.json"]
      ∧ lookup sampleFS ([] ++ ["manifest.json"]) = some (.file [17]))
    ∧ lookup sampleFS ([] ++ ["archive", "a.js"]) = some (.file [1]) :=
  have h1 := (C7_self_relative_sources sampleFS [] ["manifest.json"]
    ⟨["manifest.json"], [17], false⟩).1 rfl
  have h2 := (C7_self_relative_sources sampleFS [] ["archive"]
    ⟨["archive", "a.js"], [1], false⟩).2 (by decide) (by decide)
  ⟨⟨h1.1, h1.2 rfl⟩, h2.1⟩

/-- C8: the packaging run is deterministic — its output (entry names,
order, and contents alike) is a function of the source tree and the
script location only; the ambient environment (working directory, clock)
has no influence, so two runs over an unchanged tree produce identical
archives. -/
theorem C8_environment_independent (env1 env2 : Env) (fs : FSTree)
    (self_dirname : List String) :
    runScriptInEnv env1 fs self_dirname = runScriptInEnv env2 fs self_dirname := rfl

/-- C9: the archive handle is opened once, at the head of the operation
trace, and no operation during the run ever closes it — on any tree,
including aborted runs. -/
theorem C9_handle_never_closed (fs : FSTree) (self_dirname : List String) :
    (scriptTrace fs self_dirname).head? = some .opened
    ∧ ZipEvent.closed ∉ scriptTrace fs self_dirname := by
  refine ⟨rfl, ?_⟩
  intro hmem
  rcases List.mem_cons.1 hmem with h | h
  · cases h
  · exact closed_not_in_traceCmds fs self_dirname script h

/-- C10: `add_dir` on a path that exists but is a regular file (as with
`add_dir("LICENSE")`, package.py line 54) appends no entries and raises
no error: `os.walk` on a non-directory silently yields nothing, so the
file is silently omitted from the package. -/
theorem C10_add_dir_on_regular_file (fs : FSTree) (self_dirname rel : List String)
    (c : List Nat) (h : lookup fs (self_dirname ++ rel) = some (.file c)) :
    runCmd fs self_dirname (.addDirC rel) = .ok [] := by
  simp [runCmd, add_dir, add_dir_to_target_dir, h, walkAdd]

/-- C10 witness: on the sample tree, `add_dir("LICENSE")` hits the
regular file LICENSE and silently writes nothing. -/
theorem C10_add_dir_on_regular_file_witness :
    runCmd sampleFS [] (.addDirC ["LICENSE"]) = .ok [] :=
  C10_add_dir_on_regular_file sampleFS [] ["LICENSE"] [16] rfl

end Phantabular
